import Mathlib

/-!
Verification of the `alice` additive dependency-injection container.

The file shallowly embeds `src/container.go`.  Go `panic`s are modelled as
`Except.error` values; Go maps are modelled as association lists with Go's
last-write-wins update semantics; `reflect.Type` is modelled by the `Ty`
structure with an explicit assignability predicate; a `nil` interface value
is an `Inst` whose runtime type is `none`.

The repository files `graph.go` and `module.go` (referred to by
`createGraph`, `instantiationOrder` and `reflectModule` in `container.go`)
are not part of the provided sources; the corresponding definitions below
are modelled from the specification and say so in their doc comments.
-/

namespace Alice

/-- Model of `reflect.Type`: a named type together with the names of the
types it is assignable to (besides itself). -/
structure Ty where
  name : String
  supers : List String
deriving DecidableEq, Repr

/-- Model of `reflect.Type.AssignableTo`: a type is assignable to itself
and to each of its declared supertypes. -/
def Ty.assignableTo (a b : Ty) : Bool :=
  a == b || a.supers.contains b.name

/-- An instance value (`interface{}` in Go): an object identity plus its
runtime type.  `rty = none` models a nil interface value, for which Go's
`reflect.TypeOf` returns nil. -/
structure Inst where
  iid : Nat
  rty : Option Ty
deriving DecidableEq, Repr

/-- A factory declaration of a module (an instance method of a reflected
module): its registered name, its declared (static) type, and the value
the underlying Go method produces when called. -/
structure InstanceMethod where
  name : String
  tp : Ty
  produces : Inst
deriving DecidableEq, Repr

/-- The descriptor of a module after reflection (`reflectedModule`):
an identity (modelling the distinct Go pointer), the named-dependency
slots, the typed-dependency slots, and the factory declarations. -/
structure ReflectedModule where
  mid : Nat
  namedDepends : List String
  typedDepends : List Ty
  instances : List InstanceMethod
deriving DecidableEq, Repr

/-- Errors: each Go `panic` site of `container.go` and of the
spec-modelled construction steps is a constructor. -/
inductive Err where
  | instanceNotFound (msg : String)
  | ambiguousInstance (msg : String)
  | cyclicDependency
  | duplicateName (msg : String)
  | nilTypeDereference
deriving DecidableEq, Repr

/-- The two maps of the `container` struct, as association lists. -/
structure ContainerState where
  instanceByName : List (String × Inst)
  instanceByType : List (Ty × List Inst)
deriving DecidableEq, Repr

/-- Go map read `m[k]` for the name index. -/
def lookupName : List (String × Inst) → String → Option Inst
  | [], _ => none
  | (k, v) :: rest, n => if k = n then some v else lookupName rest n

/-- Go map read `m[t]` for the type index. -/
def lookupType : List (Ty × List Inst) → Ty → Option (List Inst)
  | [], _ => none
  | (k, v) :: rest, t => if k = t then some v else lookupType rest t

/-- Go map write `m[k] = i`: last write wins. -/
def insertName : List (String × Inst) → String → Inst → List (String × Inst)
  | [], n, i => [(n, i)]
  | (k, v) :: rest, n, i =>
    if k = n then (k, i) :: rest else (k, v) :: insertName rest n i

/-- Go map write `m[t] = l`. -/
def insertTypeList : List (Ty × List Inst) → Ty → List Inst → List (Ty × List Inst)
  | [], t, l => [(t, l)]
  | (k, v) :: rest, t, l =>
    if k = t then (k, l) :: rest else (k, v) :: insertTypeList rest t l

/-- `typedInstances, _ := m[t]; m[t] = append(typedInstances, i)`. -/
def insertType (m : List (Ty × List Inst)) (t : Ty) (i : Inst) : List (Ty × List Inst) :=
  insertTypeList m t ((lookupType m t).getD [] ++ [i])

/-- `findInstanceByName` (container.go:100-106): exact lookup in the name
index, panicking when absent. -/
def findInstanceByName (c : ContainerState) (n : String) : Except Err Inst :=
  match lookupName c.instanceByName n with
  | some i => .ok i
  | none => .error (.instanceNotFound ("instance name " ++ n ++ " is not defined"))

/-- The loop body of `findAssignableInstances` (container.go:108-117) over
the values of the name index: `reflect.TypeOf` of a nil interface value is
nil, and calling `AssignableTo` on it is a runtime nil dereference. -/
def assignableScan (t : Ty) : List Inst → Except Err (List Inst)
  | [] => .ok []
  | i :: rest =>
    match i.rty with
    | none => .error .nilTypeDereference
    | some rt =>
      match assignableScan t rest with
      | .error e => .error e
      | .ok l => .ok (if rt.assignableTo t then i :: l else l)

/-- `findAssignableInstances` (container.go:108-117): scan the instances
stored in the name index for assignability to `t`. -/
def findAssignableInstances (c : ContainerState) (t : Ty) : Except Err (List Inst) :=
  assignableScan t (c.instanceByName.map Prod.snd)

/-- The length checks ending `findInstanceByType` (container.go:90-97):
zero candidates panics not-found, more than one panics ambiguous,
otherwise the single candidate is returned. -/
def pickUnique (t : Ty) : List Inst → Except Err Inst
  | [] => .error (.instanceNotFound ("instance type " ++ t.name ++ " is not defined"))
  | [i] => .ok i
  | _ :: _ :: _ =>
    .error (.ambiguousInstance ("instance type " ++ t.name ++ " has more than one instances defined"))

/-- `findInstanceByType` (container.go:85-98): read the exact-type index;
only when the key is absent, fall back to the assignable scan; then apply
the length checks. -/
def findInstanceByType (c : ContainerState) (t : Ty) : Except Err Inst :=
  match lookupType c.instanceByType t with
  | some instances => pickUnique t instances
  | none =>
    match findAssignableInstances c t with
    | .error e => .error e
    | .ok instances => pickUnique t instances

/-- `Instance` (container.go:37-39), with the method receiver made
explicit as state passing: the method only reads the receiver. -/
def Instance (t : Ty) (c : ContainerState) : Except Err Inst × ContainerState :=
  (findInstanceByType c t, c)

/-- `InstanceByName` (container.go:41-43), with the method receiver made
explicit as state passing. -/
def InstanceByName (n : String) (c : ContainerState) : Except Err Inst × ContainerState :=
  (findInstanceByName c n, c)

/-- Registration of one produced instance into both indices
(container.go:77-81). -/
def registerInstance (c : ContainerState) (f : InstanceMethod) : ContainerState :=
  { instanceByName := insertName c.instanceByName f.name f.produces
    instanceByType := insertType c.instanceByType f.tp f.produces }

/-- The factory loop of `instantiateModule` (container.go:74-82): invoke
every factory declaration in order and register each result. -/
def runFactories (c : ContainerState) : List InstanceMethod → ContainerState
  | [] => c
  | f :: rest => runFactories (registerInstance c f) rest

/-- Sequential resolution of a list of dependency slots, stopping at the
first failure (each Go loop iteration panics on failure). -/
def resolveEach {α : Type} (f : α → Except Err Inst) : List α → Except Err (List Inst)
  | [] => .ok []
  | d :: rest =>
    match f d with
    | .error e => .error e
    | .ok i =>
      match resolveEach f rest with
      | .error e => .error e
      | .ok l => .ok (i :: l)

/-- Observable outcome of instantiating one module: final state, the
values injected into the named and typed slots, and the factory
declarations that were invoked. -/
structure ModuleResult where
  state : ContainerState
  resolvedNamed : List Inst
  resolvedTyped : List Inst
  invoked : List InstanceMethod
deriving DecidableEq, Repr

/-- `instantiateModule` (container.go:64-83): resolve all named slots,
then all typed slots (any failure aborts before any factory runs), then
invoke every factory and register its result into both indices. -/
def instantiateModule (c : ContainerState) (rm : ReflectedModule) : Except Err ModuleResult :=
  match resolveEach (findInstanceByName c) rm.namedDepends with
  | .error e => .error e
  | .ok namedVals =>
    match resolveEach (findInstanceByType c) rm.typedDepends with
    | .error e => .error e
    | .ok typedVals =>
      .ok { state := runFactories c rm.instances
            resolvedNamed := namedVals
            resolvedTyped := typedVals
            invoked := rm.instances }

/-- Does module `m` declare a factory registered under name `n`? -/
def providesName (m : ReflectedModule) (n : String) : Bool :=
  m.instances.any fun f => f.name == n

/-- Does module `m` declare a factory of exactly type `t`? -/
def providesTypeExact (m : ReflectedModule) (t : Ty) : Bool :=
  m.instances.any fun f => f.tp == t

/-- Does module `m` declare a factory whose type is assignable to `t`? -/
def providesTypeAssignable (m : ReflectedModule) (t : Ty) : Bool :=
  m.instances.any fun f => f.tp.assignableTo t

/-- Modelled from the spec: graph.go is missing from src; the modules whose
factories can satisfy a typed slot, exact-type matches first, assignable
matches only when no exact match exists anywhere. -/
def typedProviders (mods : List ReflectedModule) (t : Ty) : List ReflectedModule :=
  let exact := mods.filter fun m => providesTypeExact m t
  if exact.isEmpty then mods.filter fun m => providesTypeAssignable m t else exact

/-- Modelled from the spec: graph.go is missing from src; the dependency-graph
edge relation — module `a` must be instantiated after module `b` when one
of `a`'s named slots is provided by `b` or one of `a`'s typed slots has
`b` among its providers. -/
def dependsOn (mods : List ReflectedModule) (a b : ReflectedModule) : Bool :=
  a.namedDepends.any (fun n => providesName b n) ||
    a.typedDepends.any fun t => (typedProviders mods t).any fun m => m.mid == b.mid

/-- All factory names declared across the module set, in declaration
order. -/
def factoryNames (mods : List ReflectedModule) : List String :=
  mods.flatMap fun m => m.instances.map fun f => f.name

/-- First name that occurs twice in the list, if any. -/
def firstDup : List String → Option String
  | [] => none
  | n :: rest => if rest.contains n then some n else firstDup rest

/-- Modelled from the spec: graph.go is missing from src; `createGraph` fails
construction when two factory declarations share a name (names must be
globally unique). -/
def createGraphCheck (mods : List ReflectedModule) : Except Err Unit :=
  match firstDup (factoryNames mods) with
  | some n => .error (.duplicateName ("duplicated instance name " ++ n))
  | none => .ok ()

/-- The first module of `remaining` all of whose dependencies are already
instantiated (no edge into `remaining`, a self-loop blocking forever). -/
def readyModule (mods remaining : List ReflectedModule) : Option ReflectedModule :=
  remaining.find? fun m => remaining.all fun b => !(dependsOn mods m b)

/-- Modelled from the spec: graph.go is missing from src; Kahn-style
topological sort with input-order tie-breaking; fails with
`CyclicDependencyError` when no module is ready.  The fuel argument only
makes the recursion structural; `instantiationOrder` passes the number of
modules, which always suffices because every round removes at least the
picked module. -/
def topoAux (mods : List ReflectedModule) :
    Nat → List ReflectedModule → List ReflectedModule → Except Err (List ReflectedModule)
  | _, [], acc => .ok acc.reverse
  | 0, _ :: _, _ => .error .cyclicDependency
  | fuel + 1, r :: rest, acc =>
    match readyModule mods (r :: rest) with
    | none => .error .cyclicDependency
    | some m =>
      topoAux mods fuel ((r :: rest).filter fun b => b.mid ≠ m.mid) (m :: acc)

/-- Modelled from the spec: graph.go is missing from src; the instantiation
order of the module set. -/
def instantiationOrder (mods : List ReflectedModule) : Except Err (List ReflectedModule) :=
  topoAux mods mods.length mods []

/-- The instantiation loop of `populate` (container.go:59-61), additionally
recording the trace of invoked factory declarations.  A module whose
resolution fails contributes no invocations (`instantiateModule` panics
before its factory loop). -/
def runModules : ContainerState → List ReflectedModule → Except Err ContainerState × List InstanceMethod
  | c, [] => (.ok c, [])
  | c, rm :: rest =>
    match instantiateModule c rm with
    | .error e => (.error e, [])
    | .ok mr =>
      let p := runModules mr.state rest
      (p.1, mr.invoked ++ p.2)

/-- The empty registry created at container.go:57-58. -/
def emptyState : ContainerState := { instanceByName := [], instanceByType := [] }

/-- `CreateContainer`/`populate` (container.go:11-17, 45-62) over module
descriptors, with the trace of invoked factory declarations: the
name-uniqueness check of graph creation, then the topological order, then
the instantiation loop. -/
def createContainerT (mods : List ReflectedModule) :
    Except Err ContainerState × List InstanceMethod :=
  match createGraphCheck mods with
  | .error e => (.error e, [])
  | .ok _ =>
    match instantiationOrder mods with
    | .error e => (.error e, [])
    | .ok ordered => runModules emptyState ordered

/-- One step of the dependency relation, restricted to the module set. -/
def DepStep (mods : List ReflectedModule) (a b : ReflectedModule) : Prop :=
  a ∈ mods ∧ b ∈ mods ∧ dependsOn mods a b = true

/-- The module set contains a dependency cycle: some module depends on
itself directly or transitively. -/
def HasCycle (mods : List ReflectedModule) : Prop :=
  ∃ m, Relation.TransGen (DepStep mods) m m

instance {ε α : Type} [DecidableEq ε] [DecidableEq α] : DecidableEq (Except ε α) :=
  fun a b =>
    match a, b with
    | .ok x, .ok y =>
      if h : x = y then isTrue (by rw [h])
      else isFalse fun hc => by cases hc; exact h rfl
    | .error x, .error y =>
      if h : x = y then isTrue (by rw [h])
      else isFalse fun hc => by cases hc; exact h rfl
    | .ok _, .error _ => isFalse fun hc => by cases hc
    | .error _, .ok _ => isFalse fun hc => by cases hc

/-- Whether an instance's runtime type is assignable to `t` (false for a
nil instance, though the code never reaches that answer: it crashes). -/
def instAssignable (t : Ty) (i : Inst) : Bool :=
  match i.rty with
  | some rt => rt.assignableTo t
  | none => false

/-! ### Basic lemmas about the assignable scan -/

theorem assignableScan_nil_mem (t : Ty) {l : List Inst} {i : Inst}
    (hi : i ∈ l) (hn : i.rty = none) :
    assignableScan t l = .error .nilTypeDereference := by
  induction l with
  | nil => cases hi
  | cons j rest ih =>
    rcases List.mem_cons.mp hi with hij | hrest
    · subst hij
      simp [assignableScan, hn]
    · cases hj : j.rty with
      | none => simp [assignableScan, hj]
      | some rt => simp [assignableScan, hj, ih hrest]

theorem assignableScan_ok (t : Ty) {l : List Inst}
    (h : ∀ i ∈ l, i.rty ≠ none) :
    assignableScan t l = .ok (l.filter (instAssignable t)) := by
  induction l with
  | nil => rfl
  | cons j rest ih =>
    cases hj : j.rty with
    | none => exact absurd hj (h j (List.mem_cons_self j rest))
    | some rt =>
      have hrest : ∀ i ∈ rest, i.rty ≠ none := fun i hi =>
        h i (List.mem_cons_of_mem j hi)
      simp [assignableScan, hj, ih hrest, List.filter_cons, instAssignable]

theorem pickUnique_perm (t : Ty) {l1 l2 : List Inst} (h : l1.Perm l2) :
    pickUnique t l1 = pickUnique t l2 := by
  have hlen := h.length_eq
  match l1, l2 with
  | [], [] => rfl
  | [i], [j] =>
    have hij : i = j := List.singleton_perm_singleton.mp h
    subst hij; rfl
  | _ :: _ :: _, _ :: _ :: _ => rfl
  | [], _ :: _ => simp at hlen
  | _ :: _, [] => simp at hlen
  | [_], _ :: _ :: _ => simp at hlen
  | _ :: _ :: _, [_] => simp at hlen

/-! ### Lemmas about the association-list maps -/

theorem lookupName_insertName_self (m : List (String × Inst)) (n : String) (i : Inst) :
    lookupName (insertName m n i) n = some i := by
  induction m with
  | nil => simp [insertName, lookupName]
  | cons p rest ih =>
    by_cases hk : p.1 = n
    · simp [insertName, hk, lookupName]
    · simp [insertName, hk, lookupName, ih]

theorem lookupName_insertName_ne (m : List (String × Inst)) {k n : String}
    (hkn : k ≠ n) (i : Inst) :
    lookupName (insertName m n i) k = lookupName m k := by
  induction m with
  | nil => simp [insertName, lookupName, Ne.symm hkn]
  | cons p rest ih =>
    by_cases hp : p.1 = n
    · subst hp
      simp [insertName, lookupName, Ne.symm hkn]
    · by_cases hpk : p.1 = k
      · simp [insertName, hp, lookupName, hpk, hkn]
      · simp [insertName, hp, lookupName, hpk, ih]

theorem insertName_fresh {m : List (String × Inst)} {n : String}
    (h : lookupName m n = none) (i : Inst) :
    insertName m n i = m ++ [(n, i)] := by
  induction m with
  | nil => rfl
  | cons p rest ih =>
    by_cases hp : p.1 = n
    · simp [lookupName, hp] at h
    · simp only [lookupName, hp, if_false] at h
      simp [insertName, hp, ih h]

theorem lookupName_eq_none_iff (m : List (String × Inst)) (n : String) :
    lookupName m n = none ↔ n ∉ m.map Prod.fst := by
  induction m with
  | nil => simp [lookupName]
  | cons p rest ih =>
    by_cases hp : p.1 = n
    · simp [lookupName, hp]
    · simp [lookupName, hp, ih, Ne.symm hp]

theorem lookupName_append_left {m1 : List (String × Inst)} {n : String} {i : Inst}
    (h : lookupName m1 n = some i) (m2 : List (String × Inst)) :
    lookupName (m1 ++ m2) n = some i := by
  induction m1 with
  | nil => simp [lookupName] at h
  | cons p rest ih =>
    by_cases hp : p.1 = n
    · simp [lookupName, hp] at h ⊢; exact h
    · simp only [lookupName, hp, if_false] at h
      simp [lookupName, hp, ih h]

theorem lookupType_insertTypeList_self (m : List (Ty × List Inst)) (t : Ty) (l : List Inst) :
    lookupType (insertTypeList m t l) t = some l := by
  induction m with
  | nil => simp [insertTypeList, lookupType]
  | cons p rest ih =>
    by_cases hp : p.1 = t
    · simp [insertTypeList, hp, lookupType]
    · simp [insertTypeList, hp, lookupType, ih]

theorem lookupType_insertTypeList_ne (m : List (Ty × List Inst)) {t t' : Ty}
    (htt : t' ≠ t) (l : List Inst) :
    lookupType (insertTypeList m t l) t' = lookupType m t' := by
  induction m with
  | nil => simp [insertTypeList, lookupType, Ne.symm htt]
  | cons p rest ih =>
    by_cases hp : p.1 = t
    · subst hp
      simp [insertTypeList, lookupType, Ne.symm htt]
    · by_cases hpt : p.1 = t'
      · simp [insertTypeList, hp, lookupType, hpt, htt]
      · simp [insertTypeList, hp, lookupType, hpt, ih]

theorem lookupType_insertType (m : List (Ty × List Inst)) (t t' : Ty) (i : Inst) :
    (lookupType (insertType m t i) t').getD [] =
      if t' = t then (lookupType m t').getD [] ++ [i]
      else (lookupType m t').getD [] := by
  by_cases htt : t' = t
  · subst htt
    simp [insertType, lookupType_insertTypeList_self]
  · simp [insertType, lookupType_insertTypeList_ne m htt, htt]

/-! ### C1: exact-type index first, assignable fallback second -/

/-- C1: for every type `t`, `Instance(t)` first consults the exact-type
index: a singleton entry is returned, a longer entry is ambiguous, and
only when the index has no entry for `t` are the named instances scanned
for assignability, with not-found on zero matches and ambiguous on more
than one.  (The scan is considered on registries without nil instances;
a nil instance instead crashes the scan, see the nil-dereference
theorem.) -/
theorem instance_exact_then_assignable (c : ContainerState) (t : Ty)
    (hnn : ∀ p ∈ c.instanceByName, (p.2).rty ≠ none) :
    (∀ i, lookupType c.instanceByType t = some [i] → findInstanceByType c t = .ok i) ∧
    (∀ l, lookupType c.instanceByType t = some l → 1 < l.length →
      findInstanceByType c t =
        .error (.ambiguousInstance
          ("instance type " ++ t.name ++ " has more than one instances defined"))) ∧
    (lookupType c.instanceByType t = none →
      ∃ ms, findAssignableInstances c t = .ok ms ∧
        findInstanceByType c t = pickUnique t ms ∧
        (ms = [] → findInstanceByType c t =
          .error (.instanceNotFound ("instance type " ++ t.name ++ " is not defined"))) ∧
        (∀ i, ms = [i] → findInstanceByType c t = .ok i) ∧
        (1 < ms.length → findInstanceByType c t =
          .error (.ambiguousInstance
            ("instance type " ++ t.name ++ " has more than one instances defined")))) := by
  have hscan : assignableScan t (c.instanceByName.map Prod.snd) =
      .ok ((c.instanceByName.map Prod.snd).filter (instAssignable t)) := by
    refine assignableScan_ok t fun i hi => ?_
    rcases List.mem_map.mp hi with ⟨p, hp, hpi⟩
    exact hpi ▸ hnn p hp
  refine ⟨?_, ?_, ?_⟩
  · intro i hlk
    simp [findInstanceByType, hlk, pickUnique]
  · intro l hlk hlen
    match l, hlen with
    | a :: b :: r, _ => simp [findInstanceByType, hlk, pickUnique]
  · intro hlk
    refine ⟨(c.instanceByName.map Prod.snd).filter (instAssignable t), ?_, ?_, ?_, ?_, ?_⟩
    · simpa [findAssignableInstances] using hscan
    · simp [findInstanceByType, hlk, findAssignableInstances, hscan]
    · intro hms
      simp [findInstanceByType, hlk, findAssignableInstances, hscan, hms, pickUnique]
    · intro i hms
      simp [findInstanceByType, hlk, findAssignableInstances, hscan, hms, pickUnique]
    · intro hlen
      generalize hg : (c.instanceByName.map Prod.snd).filter (instAssignable t) = ms at hscan hlen
      match ms, hlen with
      | a :: b :: r, _ =>
        simp [findInstanceByType, hlk, findAssignableInstances, hscan, pickUnique]

/-- Witness for the exact/fallback lookup theorem, at a registry holding
one instance of type `A` (assignable to `I`) under the exact index and
the name index. -/
theorem instance_exact_then_assignable_witness :
    findInstanceByType
      { instanceByName := [("a", { iid := 1, rty := some { name := "A", supers := ["I"] } })]
        instanceByType := [({ name := "A", supers := ["I"] },
          [{ iid := 1, rty := some { name := "A", supers := ["I"] } }])] }
      { name := "A", supers := ["I"] } =
      .ok { iid := 1, rty := some { name := "A", supers := ["I"] } } :=
  (instance_exact_then_assignable
    { instanceByName := [("a", { iid := 1, rty := some { name := "A", supers := ["I"] } })]
      instanceByType := [({ name := "A", supers := ["I"] },
        [{ iid := 1, rty := some { name := "A", supers := ["I"] } }])] }
    { name := "A", supers := ["I"] } (by decide)).1
    { iid := 1, rty := some { name := "A", supers := ["I"] } } (by decide)

/-! ### C7: name lookup -/

/-- C7: `InstanceByName(n)` is an exact lookup in the name index, failing
with `InstanceNotFoundError` when `n` is absent and otherwise returning
the registered instance; repeated calls return the identical result. -/
theorem instanceByName_exact_lookup (c : ContainerState) (n : String) :
    (lookupName c.instanceByName n = none →
      findInstanceByName c n =
        .error (.instanceNotFound ("instance name " ++ n ++ " is not defined"))) ∧
    (∀ i, lookupName c.instanceByName n = some i → findInstanceByName c n = .ok i) ∧
    (InstanceByName n c).1 = findInstanceByName c n ∧
    (InstanceByName n ((InstanceByName n c).2)).1 = (InstanceByName n c).1 := by
  refine ⟨?_, ?_, rfl, rfl⟩
  · intro h; simp [findInstanceByName, h]
  · intro i h; simp [findInstanceByName, h]

/-- Witness for the name-lookup theorem at a one-entry registry. -/
theorem instanceByName_exact_lookup_witness :
    findInstanceByName
      { instanceByName := [("x", { iid := 7, rty := some { name := "B", supers := [] } })]
        instanceByType := [] } "x" =
      .ok { iid := 7, rty := some { name := "B", supers := [] } } :=
  (instanceByName_exact_lookup
    { instanceByName := [("x", { iid := 7, rty := some { name := "B", supers := [] } })]
      instanceByType := [] } "x").2.1
    { iid := 7, rty := some { name := "B", supers := [] } } (by decide)

/-! ### C8: queries never mutate the container -/

/-- C8: `Instance` and `InstanceByName` leave both indices unchanged,
whether they succeed or fail, and repeated queries in any interleaving
give identical results. -/
theorem queries_leave_state_unchanged (t : Ty) (n : String) (c : ContainerState) :
    (Instance t c).2 = c ∧ (InstanceByName n c).2 = c ∧
    (Instance t ((Instance t c).2)).1 = (Instance t c).1 ∧
    (InstanceByName n ((InstanceByName n c).2)).1 = (InstanceByName n c).1 ∧
    (Instance t ((InstanceByName n c).2)).1 = (Instance t c).1 ∧
    (InstanceByName n ((Instance t c).2)).1 = (InstanceByName n c).1 :=
  ⟨rfl, rfl, rfl, rfl, rfl, rfl⟩

/-! ### C10: a registered nil instance crashes the assignable fallback -/

/-- C10: when some registered instance is a nil interface value, the
assignable fallback of `Instance(t)` for any type `t` absent from the
exact-type index dereferences a nil `reflect.Type` instead of reporting
a not-found or ambiguity error. -/
theorem nil_instance_crashes_fallback (c : ContainerState) (t : Ty)
    (hnil : ∃ p ∈ c.instanceByName, (p.2).rty = none)
    (hmiss : lookupType c.instanceByType t = none) :
    findInstanceByType c t = .error .nilTypeDereference := by
  rcases hnil with ⟨p, hp, hpn⟩
  have hmem : p.2 ∈ c.instanceByName.map Prod.snd := List.mem_map_of_mem Prod.snd hp
  have hscan := assignableScan_nil_mem t hmem hpn
  simp [findInstanceByType, hmiss, findAssignableInstances, hscan]

/-- Witness for the nil-dereference theorem: a registry holding one nil
instance, queried at a type with no exact entry. -/
theorem nil_instance_crashes_fallback_witness :
    findInstanceByType
      { instanceByName := [("n", { iid := 3, rty := none })], instanceByType := [] }
      { name := "I", supers := [] } = .error .nilTypeDereference :=
  nil_instance_crashes_fallback
    { instanceByName := [("n", { iid := 3, rty := none })], instanceByType := [] }
    { name := "I", supers := [] } (by decide) (by decide)

/-! ### Correctness of the topological scheduler -/

/-- An order is dependency-sorted when every module appears strictly
after every module it depends on. -/
def SortedDep (mods ord : List ReflectedModule) : Prop :=
  ∀ i j (hi : i < ord.length) (hj : j < ord.length),
    dependsOn mods (ord.get ⟨i, hi⟩) (ord.get ⟨j, hj⟩) = true → j < i

theorem sortedDep_nil (mods : List ReflectedModule) : SortedDep mods [] := by
  intro i j hi
  cases hi

theorem sortedDep_cons {mods : List ReflectedModule} {m : ReflectedModule}
    {rest : List ReflectedModule}
    (hm : ∀ x ∈ m :: rest, dependsOn mods m x = false)
    (hrest : SortedDep mods rest) : SortedDep mods (m :: rest) := by
  intro i j hi hj hdep
  match i, j, hi, hj with
  | 0, j, hi, hj =>
    exfalso
    have h0 : (m :: rest).get ⟨0, hi⟩ = m := rfl
    rw [h0] at hdep
    rw [hm ((m :: rest).get ⟨j, hj⟩) (List.get_mem _ _ _)] at hdep
    exact Bool.false_ne_true hdep
  | i + 1, 0, hi, hj => exact Nat.succ_pos i
  | i + 1, j + 1, hi, hj =>
    exact Nat.succ_lt_succ
      (hrest i j (Nat.lt_of_succ_lt_succ hi) (Nat.lt_of_succ_lt_succ hj) hdep)

theorem filter_mid_perm {remaining : List ReflectedModule} {m : ReflectedModule}
    (hm : m ∈ remaining) (hnd : (remaining.map fun x => x.mid).Nodup) :
    (m :: remaining.filter fun b => b.mid ≠ m.mid).Perm remaining := by
  induction remaining with
  | nil => cases hm
  | cons a rest ih =>
    rw [List.map_cons] at hnd
    have hamid : a.mid ∉ rest.map fun x => x.mid := (List.nodup_cons.mp hnd).1
    have hndrest : (rest.map fun x => x.mid).Nodup := (List.nodup_cons.mp hnd).2
    rcases List.mem_cons.mp hm with rfl | hm'
    · have hfr : rest.filter (fun b => b.mid ≠ m.mid) = rest := by
        refine List.filter_eq_self.mpr fun b hb => ?_
        have hne : b.mid ≠ m.mid := fun hbe =>
          hamid (hbe ▸ List.mem_map_of_mem (fun x => x.mid) hb)
        simpa using hne
      have hstep : (m :: rest).filter (fun b => b.mid ≠ m.mid) = rest := by
        simp only [List.filter_cons]
        simp
        exact fun b hb hbe => hamid (hbe ▸ List.mem_map_of_mem (fun x => x.mid) hb)
      rw [hstep]
    · have hma : m.mid ≠ a.mid := fun hme =>
        hamid (hme ▸ List.mem_map_of_mem (fun x => x.mid) hm')
      have hperm := ih hm' hndrest
      have hfa : (a :: rest).filter (fun b => b.mid ≠ m.mid) =
          a :: rest.filter (fun b => b.mid ≠ m.mid) := by
        simp only [List.filter_cons]
        simp [Ne.symm hma]
      rw [hfa]
      exact (List.Perm.swap a m _).trans (hperm.cons a)

theorem readyModule_spec {mods remaining : List ReflectedModule} {m : ReflectedModule}
    (h : readyModule mods remaining = some m) :
    m ∈ remaining ∧ ∀ b ∈ remaining, dependsOn mods m b = false := by
  refine ⟨List.mem_of_find?_eq_some h, fun b hb => ?_⟩
  have := List.find?_some h
  simp only [List.all_eq_true] at this
  have hb' := this b hb
  simpa using hb'

theorem topoAux_error {mods : List ReflectedModule} :
    ∀ (fuel : Nat) {remaining acc : List ReflectedModule} {e : Err},
      topoAux mods fuel remaining acc = .error e → e = .cyclicDependency := by
  intro fuel
  induction fuel with
  | zero =>
    intro remaining acc e h
    match remaining with
    | [] => cases h
    | _ :: _ => cases h; rfl
  | succ fuel ih =>
    intro remaining acc e h
    match remaining with
    | [] => cases h
    | r :: rest =>
      simp only [topoAux] at h
      cases hr : readyModule mods (r :: rest) with
      | none => rw [hr] at h; cases h; rfl
      | some m => rw [hr] at h; exact ih h

theorem topoAux_ok {mods : List ReflectedModule} :
    ∀ (fuel : Nat) {remaining acc out : List ReflectedModule},
      remaining.length ≤ fuel →
      (remaining.map fun x => x.mid).Nodup →
      topoAux mods fuel remaining acc = .ok out →
      ∃ rest, out = acc.reverse ++ rest ∧ rest.Perm remaining ∧ SortedDep mods rest := by
  intro fuel
  induction fuel with
  | zero =>
    intro remaining acc out hle hnd h
    match remaining, hle with
    | [], _ =>
      refine ⟨[], ?_, List.Perm.refl [], sortedDep_nil mods⟩
      have : acc.reverse = out := by
        simpa [topoAux] using h
      simp [this]
  | succ fuel ih =>
    intro remaining acc out hle hnd h
    match remaining with
    | [] =>
      refine ⟨[], ?_, List.Perm.refl [], sortedDep_nil mods⟩
      have : acc.reverse = out := by
        simpa [topoAux] using h
      simp [this]
    | r :: rest =>
      simp only [topoAux] at h
      cases hr : readyModule mods (r :: rest) with
      | none => rw [hr] at h; cases h
      | some m =>
        rw [hr] at h
        rcases readyModule_spec hr with ⟨hmem, hready⟩
        have hlt : ((r :: rest).filter fun b => b.mid ≠ m.mid).length < (r :: rest).length :=
          List.length_filter_lt_length_iff_exists.mpr ⟨m, hmem, by simp⟩
        have hle' : ((r :: rest).filter fun b => b.mid ≠ m.mid).length ≤ fuel :=
          Nat.lt_succ_iff.mp (Nat.lt_of_lt_of_le hlt hle)
        have hnd' : (((r :: rest).filter fun b => b.mid ≠ m.mid).map fun x => x.mid).Nodup :=
          List.Nodup.sublist (List.Sublist.map _ (List.filter_sublist _)) hnd
        rcases ih hle' hnd' h with ⟨rest₀, hout, hperm, hsorted⟩
        refine ⟨m :: rest₀, ?_, ?_, ?_⟩
        · rw [hout]
          simp
        · exact (hperm.cons m).trans (filter_mid_perm hmem hnd)
        · refine sortedDep_cons (fun x hx => ?_) hsorted
          rcases List.mem_cons.mp hx with hxm | hx'
          · exact hxm ▸ hready m hmem
          · have hxrem : x ∈ r :: rest :=
              List.mem_of_mem_filter (hperm.mem_iff.mp hx')
            exact hready x hxrem

theorem instantiationOrder_ok {mods out : List ReflectedModule}
    (hnd : (mods.map fun x => x.mid).Nodup)
    (h : instantiationOrder mods = .ok out) :
    out.Perm mods ∧ SortedDep mods out := by
  rcases topoAux_ok mods.length (Nat.le_refl _) hnd h with ⟨rest, hout, hperm, hsorted⟩
  simp only [List.reverse_nil, List.nil_append] at hout
  subst hout
  exact ⟨hperm, hsorted⟩

theorem no_cycle_of_sorted {mods out : List ReflectedModule}
    (hperm : out.Perm mods) (hsorted : SortedDep mods out) :
    ¬ HasCycle mods := by
  rintro ⟨m, htg⟩
  have step_lt : ∀ a b, DepStep mods a b →
      List.indexOf b out < List.indexOf a out := by
    rintro a b ⟨hamem, hbmem, hdep⟩
    have ha : a ∈ out := hperm.mem_iff.mpr hamem
    have hb : b ∈ out := hperm.mem_iff.mpr hbmem
    have hia := List.indexOf_lt_length.mpr ha
    have hib := List.indexOf_lt_length.mpr hb
    have hga : out.get ⟨List.indexOf a out, hia⟩ = a := List.indexOf_get hia
    have hgb : out.get ⟨List.indexOf b out, hib⟩ = b := List.indexOf_get hib
    exact hsorted _ _ hia hib (by rw [hga, hgb]; exact hdep)
  have key : ∀ a b, Relation.TransGen (DepStep mods) a b →
      List.indexOf b out < List.indexOf a out := by
    intro a b htg'
    induction htg' with
    | single h => exact step_lt _ _ h
    | tail _ h ih => exact Nat.lt_trans (step_lt _ _ h) ih
  exact Nat.lt_irrefl _ (key m m htg)

/-! ### Lemmas about the duplicate-name check -/

theorem contains_eq_false_iff (l : List String) (n : String) :
    l.contains n = false ↔ n ∉ l := by
  simp [List.contains, List.elem_eq_mem]

theorem contains_eq_true_iff (l : List String) (n : String) :
    l.contains n = true ↔ n ∈ l := by
  simp [List.contains, List.elem_eq_mem]

theorem firstDup_eq_none_of_nodup : ∀ {l : List String}, l.Nodup → firstDup l = none := by
  intro l hnd
  induction l with
  | nil => rfl
  | cons n rest ih =>
    rcases List.nodup_cons.mp hnd with ⟨hn, hrest⟩
    simp [firstDup, hn, ih hrest]

theorem firstDup_isSome_of_not_nodup : ∀ {l : List String}, ¬ l.Nodup →
    ∃ n, firstDup l = some n := by
  intro l hnd
  induction l with
  | nil => exact absurd List.nodup_nil hnd
  | cons n rest ih =>
    cases hc : rest.contains n with
    | true =>
      have hmem : n ∈ rest := (contains_eq_true_iff rest n).mp hc
      exact ⟨n, by simp [firstDup, hmem]⟩
    | false =>
      have hn : n ∉ rest := (contains_eq_false_iff rest n).mp hc
      have hnr : ¬ rest.Nodup := fun h => hnd (List.nodup_cons.mpr ⟨hn, h⟩)
      rcases ih hnr with ⟨d, hd⟩
      exact ⟨d, by simp [firstDup, hn, hd]⟩

/-! ### The instantiation loop -/

theorem instantiateModule_ok_inv {c : ContainerState} {rm : ReflectedModule}
    {mr : ModuleResult} (h : instantiateModule c rm = .ok mr) :
    mr.state = runFactories c rm.instances ∧ mr.invoked = rm.instances ∧
    resolveEach (findInstanceByName c) rm.namedDepends = .ok mr.resolvedNamed ∧
    resolveEach (findInstanceByType c) rm.typedDepends = .ok mr.resolvedTyped := by
  unfold instantiateModule at h
  cases h1 : resolveEach (findInstanceByName c) rm.namedDepends with
  | error e => rw [h1] at h; cases h
  | ok nv =>
    rw [h1] at h
    cases h2 : resolveEach (findInstanceByType c) rm.typedDepends with
    | error e => rw [h2] at h; cases h
    | ok tv =>
      rw [h2] at h
      cases h
      exact ⟨rfl, rfl, rfl, rfl⟩

theorem runModules_ok_trace : ∀ {c : ContainerState} {l : List ReflectedModule}
    {st : ContainerState} {tr : List InstanceMethod},
    runModules c l = (.ok st, tr) → tr = l.flatMap fun rm => rm.instances := by
  intro c l
  induction l generalizing c with
  | nil =>
    intro st tr h
    simp only [runModules] at h
    rw [Prod.mk.injEq] at h
    simp [h.2.symm]
  | cons rm rest ih =>
    intro st tr h
    cases hi : instantiateModule c rm with
    | error e =>
      simp only [runModules, hi] at h
      rw [Prod.mk.injEq] at h
      cases h.1
    | ok mr =>
      simp only [runModules, hi] at h
      rcases hq : runModules mr.state rest with ⟨res, tr'⟩
      rw [hq] at h
      dsimp only at h
      rw [Prod.mk.injEq] at h
      obtain ⟨h1, h2⟩ := h
      have htr' : tr' = rest.flatMap fun x => x.instances := by
        apply ih
        rw [hq, h1]
      rw [← h2, htr', (instantiateModule_ok_inv hi).2.1]
      simp

/-! ### C2 (corrected): an acyclic module set can still fail; on success
every factory is invoked exactly once -/

/-- A module with a named slot nobody provides: the module set is
acyclic, yet construction fails with a resolution error. -/
def orphanModule : ReflectedModule :=
  { mid := 0, namedDepends := ["db"], typedDepends := [], instances := [] }

theorem transGen_of_empty {α : Type} {r : α → α → Prop}
    (h : ∀ a b, ¬ r a b) : ∀ a b, ¬ Relation.TransGen r a b := by
  intro a b htg
  induction htg with
  | single hs => exact h _ _ hs
  | tail _ hs _ => exact h _ _ hs

theorem orphan_no_step : ∀ a b, ¬ DepStep [orphanModule] a b := by
  rintro a b ⟨ha, hb, hdep⟩
  rw [List.mem_singleton] at ha hb
  subst ha; subst hb
  exact absurd hdep (by decide)

/-- Counterexample to C2 as stated: `[orphanModule]` is acyclic, yet
`CreateContainer` fails (with `InstanceNotFoundError`, not success). -/
theorem acyclic_set_can_fail_cex :
    ¬ HasCycle [orphanModule] ∧
    (createContainerT [orphanModule]).1 =
      .error (.instanceNotFound "instance name db is not defined") := by
  constructor
  · rintro ⟨m, htg⟩
    exact transGen_of_empty orphan_no_step m m htg
  · decide

/-- C2 (amended): whenever `CreateContainer` succeeds — module sets whose
graph is acyclic and all of whose slots resolve — every factory
declaration of every module is invoked exactly once: the invocation trace
is a permutation of the declared factories.  Construction is the only
traced operation; the query API is pure (see the frame theorem). -/
theorem factories_invoked_once (mods : List ReflectedModule) (st : ContainerState)
    (tr : List InstanceMethod)
    (hmids : (mods.map fun m => m.mid).Nodup)
    (h : createContainerT mods = (.ok st, tr)) :
    tr.Perm (mods.flatMap fun rm => rm.instances) := by
  unfold createContainerT at h
  cases hg : createGraphCheck mods with
  | error e => simp only [hg] at h; rw [Prod.mk.injEq] at h; cases h.1
  | ok u =>
    cases ho : instantiationOrder mods with
    | error e => simp only [hg, ho] at h; rw [Prod.mk.injEq] at h; cases h.1
    | ok ordered =>
      simp only [hg, ho] at h
      have hperm := (instantiationOrder_ok hmids ho).1
      have htr := runModules_ok_trace h
      rw [htr]
      exact List.Perm.flatMap_right _ hperm

/-- A self-contained module used by several witnesses: one factory, no
dependencies. -/
def soloFac : InstanceMethod :=
  { name := "w", tp := { name := "B", supers := [] }
    produces := { iid := 1, rty := some { name := "B", supers := [] } } }

def soloModule : ReflectedModule :=
  { mid := 0, namedDepends := [], typedDepends := [], instances := [soloFac] }

def soloState : ContainerState :=
  { instanceByName := [("w", soloFac.produces)]
    instanceByType := [({ name := "B", supers := [] }, [soloFac.produces])] }

/-- Witness for the amended C2 theorem at a one-module set. -/
theorem factories_invoked_once_witness :
    ([soloModule].map fun m => m.mid).Nodup ∧
    createContainerT [soloModule] = (.ok soloState, [soloFac]) ∧
    [soloFac].Perm ([soloModule].flatMap fun rm => rm.instances) :=
  ⟨by decide, by decide,
    factories_invoked_once [soloModule] soloState [soloFac] (by decide) (by decide)⟩

/-! ### C3: a cyclic module set fails before creating anything -/

/-- C3: when the dependency graph of the module set has a cycle (a module
depending on itself directly or transitively), `CreateContainer` fails
with `CyclicDependencyError`, no factory is invoked, and zero instances
are created. -/
theorem cyclic_construction_fails (mods : List ReflectedModule)
    (hmids : (mods.map fun m => m.mid).Nodup)
    (hnames : (factoryNames mods).Nodup)
    (hc : HasCycle mods) :
    createContainerT mods = (.error .cyclicDependency, []) := by
  have hdup : firstDup (factoryNames mods) = none := firstDup_eq_none_of_nodup hnames
  cases ho : instantiationOrder mods with
  | ok ordered =>
    rcases instantiationOrder_ok hmids ho with ⟨hperm, hsorted⟩
    exact absurd hc (no_cycle_of_sorted hperm hsorted)
  | error e =>
    have he : e = .cyclicDependency := topoAux_error mods.length ho
    subst he
    simp [createContainerT, createGraphCheck, hdup, ho]

/-- Two modules whose named slots are provided by each other's factory:
a dependency cycle. -/
def cycModA : ReflectedModule :=
  { mid := 0, namedDepends := ["b"], typedDepends := []
    instances := [{ name := "a", tp := { name := "A", supers := [] }
                    produces := { iid := 1, rty := some { name := "A", supers := [] } } }] }

def cycModB : ReflectedModule :=
  { mid := 1, namedDepends := ["a"], typedDepends := []
    instances := [{ name := "b", tp := { name := "B", supers := [] }
                    produces := { iid := 2, rty := some { name := "B", supers := [] } } }] }

/-- Witness for the cycle theorem at a concrete two-module cycle. -/
theorem cyclic_construction_fails_witness :
    createContainerT [cycModA, cycModB] = (.error .cyclicDependency, []) := by
  have s1 : DepStep [cycModA, cycModB] cycModA cycModB := ⟨by simp, by simp, by decide⟩
  have s2 : DepStep [cycModA, cycModB] cycModB cycModA := ⟨by simp, by simp, by decide⟩
  exact cyclic_construction_fails [cycModA, cycModB] (by decide) (by decide)
    ⟨cycModA, Relation.TransGen.head s1 (Relation.TransGen.single s2)⟩

/-! ### C4: duplicate factory names abort construction -/

/-- C4: if two factory declarations (in particular, in two different
modules) carry the same name, `CreateContainer` deterministically fails
at construction with a name-collision error and returns no container. -/
theorem duplicate_factory_name_fails (mods : List ReflectedModule)
    (h : ¬ (factoryNames mods).Nodup) :
    ∃ msg, createContainerT mods = (.error (.duplicateName msg), []) := by
  rcases firstDup_isSome_of_not_nodup h with ⟨n, hn⟩
  exact ⟨"duplicated instance name " ++ n,
    by simp [createContainerT, createGraphCheck, hn]⟩

def dupModA : ReflectedModule :=
  { mid := 0, namedDepends := [], typedDepends := []
    instances := [{ name := "x", tp := { name := "A", supers := [] }
                    produces := { iid := 1, rty := some { name := "A", supers := [] } } }] }

def dupModB : ReflectedModule :=
  { mid := 1, namedDepends := [], typedDepends := []
    instances := [{ name := "x", tp := { name := "B", supers := [] }
                    produces := { iid := 2, rty := some { name := "B", supers := [] } } }] }

/-- Witness for the name-collision theorem at two modules both declaring
a factory named `x`. -/
theorem duplicate_factory_name_fails_witness :
    ¬ (factoryNames [dupModA, dupModB]).Nodup ∧
    ∃ msg, createContainerT [dupModA, dupModB] = (.error (.duplicateName msg), []) :=
  ⟨by decide, duplicate_factory_name_fails [dupModA, dupModB] (by decide)⟩

/-! ### Slot resolution and registration within one module -/

theorem resolveEach_ok_length {α : Type} {f : α → Except Err Inst} :
    ∀ {l : List α} {vs : List Inst}, resolveEach f l = .ok vs → vs.length = l.length := by
  intro l
  induction l with
  | nil =>
    intro vs h
    cases h
    rfl
  | cons d rest ih =>
    intro vs h
    simp only [resolveEach] at h
    cases h1 : f d with
    | error e => rw [h1] at h; cases h
    | ok i =>
      rw [h1] at h
      cases h2 : resolveEach f rest with
      | error e => rw [h2] at h; cases h
      | ok l' =>
        rw [h2] at h
        cases h
        simp [ih h2]

theorem resolveEach_ok_get {α : Type} {f : α → Except Err Inst} :
    ∀ {l : List α} {vs : List Inst}, resolveEach f l = .ok vs →
      ∀ k (hk : k < l.length) (hk2 : k < vs.length),
        f (l.get ⟨k, hk⟩) = .ok (vs.get ⟨k, hk2⟩) := by
  intro l
  induction l with
  | nil =>
    intro vs h k hk
    cases hk
  | cons d rest ih =>
    intro vs h k hk hk2
    simp only [resolveEach] at h
    cases h1 : f d with
    | error e => rw [h1] at h; cases h
    | ok i =>
      rw [h1] at h
      cases h2 : resolveEach f rest with
      | error e => rw [h2] at h; cases h
      | ok l' =>
        rw [h2] at h
        cases h
        match k with
        | 0 => exact h1
        | k + 1 =>
          exact ih h2 k (Nat.lt_of_succ_lt_succ hk) (Nat.lt_of_succ_lt_succ hk2)

theorem runFactories_lookupName_ne {k : String} :
    ∀ {fs : List InstanceMethod} {c : ContainerState}, (∀ f ∈ fs, k ≠ f.name) →
      lookupName (runFactories c fs).instanceByName k = lookupName c.instanceByName k := by
  intro fs
  induction fs with
  | nil => intro c _; rfl
  | cons g rest ih =>
    intro c hne
    have hg : k ≠ g.name := hne g (List.mem_cons_self g rest)
    have hrest : ∀ f ∈ rest, k ≠ f.name := fun f hf =>
      hne f (List.mem_cons_of_mem g hf)
    show lookupName (runFactories (registerInstance c g) rest).instanceByName k = _
    rw [ih hrest]
    exact lookupName_insertName_ne _ hg _

theorem runFactories_name {fs : List InstanceMethod} :
    ∀ {c : ContainerState}, (fs.map fun f => f.name).Nodup →
      ∀ f ∈ fs, lookupName (runFactories c fs).instanceByName f.name = some f.produces := by
  induction fs with
  | nil => intro c _ f hf; cases hf
  | cons g rest ih =>
    intro c hnd f hf
    rw [List.map_cons] at hnd
    have hgn : g.name ∉ rest.map fun x => x.name := (List.nodup_cons.mp hnd).1
    have hndr : (rest.map fun x => x.name).Nodup := (List.nodup_cons.mp hnd).2
    rcases List.mem_cons.mp hf with rfl | hf'
    · have hpres : ∀ f' ∈ rest, f.name ≠ f'.name := fun f' hf' he =>
        hgn (he ▸ List.mem_map_of_mem (fun x => x.name) hf')
      show lookupName (runFactories (registerInstance c f) rest).instanceByName f.name = _
      rw [runFactories_lookupName_ne hpres]
      exact lookupName_insertName_self _ _ _
    · exact ih hndr f hf'

theorem typeEntry_register_mono {c : ContainerState} {t : Ty} {i : Inst}
    (f : InstanceMethod) (h : i ∈ (lookupType c.instanceByType t).getD []) :
    i ∈ (lookupType (registerInstance c f).instanceByType t).getD [] := by
  show i ∈ (lookupType (insertType c.instanceByType f.tp f.produces) t).getD []
  rw [lookupType_insertType]
  split
  · exact List.mem_append_left _ h
  · exact h

theorem runFactories_type_mono {t : Ty} {i : Inst} :
    ∀ {fs : List InstanceMethod} {c : ContainerState},
      i ∈ (lookupType c.instanceByType t).getD [] →
      i ∈ (lookupType (runFactories c fs).instanceByType t).getD [] := by
  intro fs
  induction fs with
  | nil => intro c h; exact h
  | cons g rest ih =>
    intro c h
    exact ih (typeEntry_register_mono g h)

theorem runFactories_type {fs : List InstanceMethod} :
    ∀ {c : ContainerState}, ∀ f ∈ fs,
      f.produces ∈ (lookupType (runFactories c fs).instanceByType f.tp).getD [] := by
  induction fs with
  | nil => intro c f hf; cases hf
  | cons g rest ih =>
    intro c f hf
    rcases List.mem_cons.mp hf with rfl | hf'
    · show f.produces ∈
        (lookupType (runFactories (registerInstance c f) rest).instanceByType f.tp).getD []
      refine runFactories_type_mono ?_
      show f.produces ∈
        (lookupType (insertType c.instanceByType f.tp f.produces) f.tp).getD []
      rw [lookupType_insertType]
      simp
    · exact ih f hf'

/-! ### C6: per-module executor contract -/

/-- C6: for every module the executor resolves all named slots by exact
name lookup and all typed slots by exact-then-assignable type lookup, and
any resolution failure aborts the module with that error before a single
factory runs; on success every factory declaration is invoked and its
result is registered in both the name index and the type index. -/
theorem module_execution_contract (c : ContainerState) (rm : ReflectedModule)
    (hnd : (rm.instances.map fun f => f.name).Nodup) :
    (∀ e, resolveEach (findInstanceByName c) rm.namedDepends = .error e →
      instantiateModule c rm = .error e) ∧
    (∀ nv e, resolveEach (findInstanceByName c) rm.namedDepends = .ok nv →
      resolveEach (findInstanceByType c) rm.typedDepends = .error e →
      instantiateModule c rm = .error e) ∧
    (∀ mr, instantiateModule c rm = .ok mr →
      mr.invoked = rm.instances ∧
      mr.resolvedNamed.length = rm.namedDepends.length ∧
      mr.resolvedTyped.length = rm.typedDepends.length ∧
      (∀ k (hk : k < rm.namedDepends.length) (hk2 : k < mr.resolvedNamed.length),
        findInstanceByName c (rm.namedDepends.get ⟨k, hk⟩) =
          .ok (mr.resolvedNamed.get ⟨k, hk2⟩)) ∧
      (∀ k (hk : k < rm.typedDepends.length) (hk2 : k < mr.resolvedTyped.length),
        findInstanceByType c (rm.typedDepends.get ⟨k, hk⟩) =
          .ok (mr.resolvedTyped.get ⟨k, hk2⟩)) ∧
      (∀ f ∈ rm.instances,
        lookupName mr.state.instanceByName f.name = some f.produces ∧
        f.produces ∈ (lookupType mr.state.instanceByType f.tp).getD [])) := by
  refine ⟨?_, ?_, ?_⟩
  · intro e he
    simp [instantiateModule, he]
  · intro nv e hn ht
    simp [instantiateModule, hn, ht]
  · intro mr hmr
    obtain ⟨hstate, hinv, hnamed, htyped⟩ := instantiateModule_ok_inv hmr
    refine ⟨hinv, resolveEach_ok_length hnamed, resolveEach_ok_length htyped, ?_, ?_, ?_⟩
    · exact fun k hk hk2 => resolveEach_ok_get hnamed k hk hk2
    · exact fun k hk hk2 => resolveEach_ok_get htyped k hk hk2
    · intro f hf
      rw [hstate]
      exact ⟨runFactories_name hnd f hf, runFactories_type f hf⟩

def depFac : InstanceMethod :=
  { name := "d", tp := { name := "D", supers := [] }
    produces := { iid := 9, rty := some { name := "D", supers := [] } } }

/-- A module with one named slot and one typed slot, both satisfied by
`soloState`. -/
def depModule : ReflectedModule :=
  { mid := 1, namedDepends := ["w"], typedDepends := [{ name := "B", supers := [] }]
    instances := [depFac] }

def depResult : ModuleResult :=
  { state :=
      { instanceByName := [("w", soloFac.produces), ("d", depFac.produces)]
        instanceByType := [({ name := "B", supers := [] }, [soloFac.produces]),
                           ({ name := "D", supers := [] }, [depFac.produces])] }
    resolvedNamed := [soloFac.produces]
    resolvedTyped := [soloFac.produces]
    invoked := [depFac] }

/-- Witness for the executor contract: one module with a named and a
typed slot, executed against `soloState`. -/
theorem module_execution_contract_witness :
    instantiateModule soloState depModule = .ok depResult ∧
    depResult.invoked = depModule.instances ∧
    lookupName depResult.state.instanceByName "d" = some depFac.produces ∧
    depFac.produces ∈ (lookupType depResult.state.instanceByType depFac.tp).getD [] := by
  have h : instantiateModule soloState depModule = .ok depResult := by decide
  have hc := (module_execution_contract soloState depModule (by decide)).2.2 depResult h
  exact ⟨h, hc.1, (hc.2.2.2.2.2 depFac (by decide)).1, (hc.2.2.2.2.2 depFac (by decide)).2⟩

/-! ### The construction invariant relating trace and registry -/

/-- All instances stored anywhere in the type index. -/
def typeFlatten (c : ContainerState) : List Inst :=
  c.instanceByType.flatMap Prod.snd

/-- The invariant tying a reachable registry to the invocation trace that
produced it: the name index is exactly the trace (in order), every type
entry is the subtrace of that type (in order), and the instances of the
type index are, up to order, the instances of the name index. -/
def RegInv (c : ContainerState) (tr : List InstanceMethod) : Prop :=
  c.instanceByName = (tr.map fun f => (f.name, f.produces)) ∧
  (∀ t, (lookupType c.instanceByType t).getD [] =
    ((tr.filter fun f => f.tp = t).map fun f => f.produces)) ∧
  (typeFlatten c).Perm (tr.map fun f => f.produces)

theorem typeFlatten_insertType (m : List (Ty × List Inst)) (t : Ty) (i : Inst) :
    ((insertType m t i).flatMap Prod.snd).Perm (m.flatMap Prod.snd ++ [i]) := by
  induction m with
  | nil =>
    simp [insertType, insertTypeList, lookupType]
  | cons p rest ih =>
    rcases p with ⟨k, l⟩
    by_cases hk : k = t
    · subst hk
      have h1 : insertType ((k, l) :: rest) k i = (k, l ++ [i]) :: rest := by
        simp [insertType, lookupType, insertTypeList]
      rw [h1]
      simp only [List.flatMap_cons]
      rw [List.append_assoc, List.append_assoc]
      exact List.Perm.append_left l List.perm_append_comm
    · have h1 : insertType ((k, l) :: rest) t i = (k, l) :: insertType rest t i := by
        simp [insertType, lookupType, insertTypeList, hk]
      rw [h1]
      simp only [List.flatMap_cons]
      rw [List.append_assoc]
      exact List.Perm.append_left l ih

theorem regInv_step {c : ContainerState} {tr : List InstanceMethod}
    (f : InstanceMethod) (hinv : RegInv c tr)
    (hfresh : f.name ∉ tr.map fun g => g.name) :
    RegInv (registerInstance c f) (tr ++ [f]) := by
  obtain ⟨hname, htype, hflat⟩ := hinv
  have hlk : lookupName c.instanceByName f.name = none := by
    rw [lookupName_eq_none_iff, hname]
    intro hmem
    rw [List.map_map] at hmem
    exact hfresh (by simpa using hmem)
  refine ⟨?_, ?_, ?_⟩
  · show insertName c.instanceByName f.name f.produces = _
    rw [insertName_fresh hlk, hname]
    simp
  · intro t
    show (lookupType (insertType c.instanceByType f.tp f.produces) t).getD [] = _
    rw [lookupType_insertType]
    by_cases ht : t = f.tp
    · rw [if_pos ht, htype t]
      simp [List.filter_append, ht]
    · rw [if_neg ht, htype t]
      simp [List.filter_append, show ¬ f.tp = t from fun hc => ht hc.symm]
  · have h1 := typeFlatten_insertType c.instanceByType f.tp f.produces
    have h2 := hflat.append_right [f.produces]
    have h3 : ((tr ++ [f]).map fun g => g.produces) =
        (tr.map fun g => g.produces) ++ [f.produces] := by simp
    show ((insertType c.instanceByType f.tp f.produces).flatMap Prod.snd).Perm _
    rw [h3]
    exact h1.trans h2

theorem runFactories_regInv : ∀ {fs : List InstanceMethod} {c : ContainerState}
    {tr0 : List InstanceMethod}, RegInv c tr0 →
    ((tr0 ++ fs).map fun f => f.name).Nodup →
    RegInv (runFactories c fs) (tr0 ++ fs) := by
  intro fs
  induction fs with
  | nil =>
    intro c tr0 hinv hnd
    simpa using hinv
  | cons g rest ih =>
    intro c tr0 hinv hnd
    have hfresh : g.name ∉ tr0.map fun f => f.name := by
      rw [List.map_append] at hnd
      have hdisj := (List.nodup_append.mp hnd).2.2
      intro hmem
      exact hdisj hmem (by simp)
    have hstep := regInv_step g hinv hfresh
    have hnd' : (((tr0 ++ [g]) ++ rest).map fun f => f.name).Nodup := by
      rw [List.append_assoc]
      simpa using hnd
    have hres := ih hstep hnd'
    rw [List.append_assoc] at hres
    exact hres

theorem runModules_regInv : ∀ {l : List ReflectedModule} {c st : ContainerState}
    {tr0 tr : List InstanceMethod}, RegInv c tr0 →
    ((tr0 ++ l.flatMap fun rm => rm.instances).map fun f => f.name).Nodup →
    runModules c l = (.ok st, tr) →
    RegInv st (tr0 ++ tr) := by
  intro l
  induction l with
  | nil =>
    intro c st tr0 tr hinv hnd h
    simp only [runModules] at h
    rw [Prod.mk.injEq] at h
    obtain ⟨h1, h2⟩ := h
    cases h1
    rw [← h2]
    simpa using hinv
  | cons rm rest ih =>
    intro c st tr0 tr hinv hnd h
    cases hi : instantiateModule c rm with
    | error e =>
      simp only [runModules, hi] at h
      rw [Prod.mk.injEq] at h
      cases h.1
    | ok mr =>
      simp only [runModules, hi] at h
      rcases hq : runModules mr.state rest with ⟨res, tr'⟩
      rw [hq] at h
      dsimp only at h
      rw [Prod.mk.injEq] at h
      obtain ⟨h1, h2⟩ := h
      obtain ⟨hstate, hinvok, -, -⟩ := instantiateModule_ok_inv hi
      have hnd1 : (((tr0 ++ rm.instances) ++ rest.flatMap fun x => x.instances).map
          fun f => f.name).Nodup := by
        rw [List.append_assoc]
        simpa [List.flatMap_cons] using hnd
      have hinv1 : RegInv mr.state (tr0 ++ rm.instances) := by
        rw [hstate]
        refine runFactories_regInv hinv ?_
        rw [List.map_append] at hnd1 ⊢
        rw [List.map_append] at hnd1
        exact (List.nodup_append.mp (by rwa [List.append_assoc] at hnd1)).1
      have hres := ih hinv1 hnd1 (by rw [hq, h1])
      rw [← h2, hinvok]
      rw [List.append_assoc] at hres
      exact hres

theorem nodup_of_firstDup_eq_none : ∀ {l : List String}, firstDup l = none → l.Nodup := by
  intro l h
  induction l with
  | nil => exact List.nodup_nil
  | cons n rest ih =>
    cases hc : rest.contains n with
    | true =>
      have hmem : n ∈ rest := (contains_eq_true_iff rest n).mp hc
      simp [firstDup, hmem] at h
    | false =>
      have hn : n ∉ rest := (contains_eq_false_iff rest n).mp hc
      have hr : firstDup rest = none := by
        simpa [firstDup, hn] using h
      exact List.nodup_cons.mpr ⟨hn, ih hr⟩

theorem createContainer_regInv {mods : List ReflectedModule} {st : ContainerState}
    {tr : List InstanceMethod}
    (hmids : (mods.map fun m => m.mid).Nodup)
    (h : createContainerT mods = (.ok st, tr)) :
    RegInv st tr ∧ (tr.map fun f => f.name).Nodup := by
  unfold createContainerT at h
  cases hg : createGraphCheck mods with
  | error e => simp only [hg] at h; rw [Prod.mk.injEq] at h; cases h.1
  | ok u =>
    cases ho : instantiationOrder mods with
    | error e => simp only [hg, ho] at h; rw [Prod.mk.injEq] at h; cases h.1
    | ok ordered =>
      simp only [hg, ho] at h
      have hperm := (instantiationOrder_ok hmids ho).1
      have hnames : (factoryNames mods).Nodup := by
        apply nodup_of_firstDup_eq_none
        by_contra hne
        rcases Option.ne_none_iff_exists.mp hne with ⟨n, hn⟩
        simp [createGraphCheck, hn.symm] at hg
      have hnamesOrd : (factoryNames ordered).Nodup :=
        ((List.Perm.flatMap_right _ hperm).nodup_iff).mpr hnames
      have htr := runModules_ok_trace h
      have hndtr : ((ordered.flatMap fun rm => rm.instances).map fun f => f.name).Nodup := by
        rw [List.map_flatMap]
        exact hnamesOrd
      have hinv0 : RegInv emptyState [] := by
        refine ⟨rfl, fun t => rfl, ?_⟩
        simp [typeFlatten, emptyState]
      have := runModules_regInv hinv0 (by simpa using hndtr) h
      refine ⟨by simpa using this, ?_⟩
      rw [htr, List.map_flatMap]
      exact hnamesOrd

/-! ### C5: the registry grows append-only during construction -/

/-- C5: on every successful construction the name index equals the
invocation trace in order (so every registration added a fresh key — no
binding is ever overwritten and keys stay unique), each type entry lists
that type's instances in insertion order, and the query operations do not
modify either index afterwards. -/
theorem registry_append_only (mods : List ReflectedModule) (st : ContainerState)
    (tr : List InstanceMethod)
    (hmids : (mods.map fun m => m.mid).Nodup)
    (h : createContainerT mods = (.ok st, tr)) :
    st.instanceByName = (tr.map fun f => (f.name, f.produces)) ∧
    (st.instanceByName.map Prod.fst).Nodup ∧
    (∀ t, (lookupType st.instanceByType t).getD [] =
      ((tr.filter fun f => f.tp = t).map fun f => f.produces)) ∧
    (∀ t, (Instance t st).2 = st) ∧
    (∀ n, (InstanceByName n st).2 = st) := by
  obtain ⟨⟨hname, htype, -⟩, hnd⟩ := createContainer_regInv hmids h
  refine ⟨hname, ?_, htype, fun t => rfl, fun n => rfl⟩
  rw [hname, List.map_map]
  simpa using hnd

/-- Witness for the append-only theorem at the one-module set. -/
theorem registry_append_only_witness :
    createContainerT [soloModule] = (.ok soloState, [soloFac]) ∧
    soloState.instanceByName = ([soloFac].map fun f => (f.name, f.produces)) ∧
    (soloState.instanceByName.map Prod.fst).Nodup := by
  have h : createContainerT [soloModule] = (.ok soloState, [soloFac]) := by decide
  have hc := registry_append_only [soloModule] soloState [soloFac] (by decide) h
  exact ⟨h, hc.1, hc.2.1⟩

/-! ### C9: the two possible fallback scans agree on reachable registries -/

/-- Modelled from the spec: the spec's words for the fallback, for comparison only — a variant of
`findInstanceByType` whose assignable fallback scans every instance
stored in the type index instead of the instances keyed by name. -/
def findInstanceByTypeSpecScan (c : ContainerState) (t : Ty) : Except Err Inst :=
  match lookupType c.instanceByType t with
  | some instances => pickUnique t instances
  | none =>
    match assignableScan t (typeFlatten c) with
    | .error e => .error e
    | .ok instances => pickUnique t instances

/-- C9: on every registry produced by a successful construction, the
source's fallback (scanning the instances keyed by name) and the
spec-equivalent fallback (scanning every instance of the type index)
return the same result — same instance, or the same failure — because
every produced instance is registered under both indices. -/
theorem fallback_scan_equiv (mods : List ReflectedModule) (st : ContainerState)
    (tr : List InstanceMethod) (t : Ty)
    (hmids : (mods.map fun m => m.mid).Nodup)
    (h : createContainerT mods = (.ok st, tr)) :
    findInstanceByType st t = findInstanceByTypeSpecScan st t := by
  obtain ⟨⟨hname, -, hflat⟩, -⟩ := createContainer_regInv hmids h
  cases hlk : lookupType st.instanceByType t with
  | some l => simp [findInstanceByType, findInstanceByTypeSpecScan, hlk]
  | none =>
    have hperm : (st.instanceByName.map Prod.snd).Perm (typeFlatten st) := by
      rw [hname, List.map_map]
      have hm : (tr.map (Prod.snd ∘ fun f => (f.name, f.produces))) =
          (tr.map fun f => f.produces) := by simp
      rw [hm]
      exact hflat.symm
    by_cases hnil : ∃ i ∈ st.instanceByName.map Prod.snd, i.rty = none
    · rcases hnil with ⟨i, hi, hin⟩
      have h1 := assignableScan_nil_mem t hi hin
      have h2 := assignableScan_nil_mem t (hperm.mem_iff.mp hi) hin
      simp [findInstanceByType, findInstanceByTypeSpecScan, hlk,
        findAssignableInstances, h1, h2]
    · push_neg at hnil
      have h1 := assignableScan_ok t hnil
      have h2 := assignableScan_ok t fun i hi => hnil i (hperm.mem_iff.mpr hi)
      simp only [findInstanceByType, findInstanceByTypeSpecScan, hlk,
        findAssignableInstances, h1, h2]
      exact pickUnique_perm t (hperm.filter _)

/-- Witness for the fallback-equivalence theorem on the registry built
from the one-module set, at a type with no exact entry. -/
theorem fallback_scan_equiv_witness :
    findInstanceByType soloState { name := "C", supers := [] } =
      findInstanceByTypeSpecScan soloState { name := "C", supers := [] } :=
  fallback_scan_equiv [soloModule] soloState [soloFac]
    { name := "C", supers := [] } (by decide) (by decide)

end Alice
